import Mathlib

/-!
# Verification of the VAEs-Implementations sampling driver and SimpleCNN models

Shallow embedding of `sample.py` and `models/simple_cnn.py`:
the batching helper, the three sampling procedures (plain sampling,
latent interpolation, latent traversal), the mode dispatch, and the
structural / numeric behaviour of the CNN encoder and decoder.
-/

namespace VAESpec

/-! ## Batching helper -/

/-- Modelled from the spec: the batching helper `amortize` is imported in
`sample.py` from `utils/misc.py`, a file of this repository that is not
among the provided sources.  Per the spec contract: given total count `n`
and max batch size `b`, produce a finite sequence of positive integers
summing to `n`, each at most `b`, all chunks equal to `b` except a
possibly smaller final remainder; empty for `n = 0`; fails if `b ≤ 0`
(for natural-number inputs, `b = 0`). -/
def amortize (n b : ℕ) : Option (List ℕ) :=
  if b = 0 then none
  else some (List.replicate (n / b) b ++ if n % b = 0 then [] else [n % b])

theorem amortize_sum (n b : ℕ) :
    (List.replicate (n / b) b ++ if n % b = 0 then [] else [n % b]).sum = n := by
  rcases Nat.eq_zero_or_pos (n % b) with h | h
  · rw [if_pos h, List.append_nil, List.sum_replicate, smul_eq_mul]
    exact Nat.div_mul_cancel (Nat.dvd_of_mod_eq_zero h)
  · simp only [if_neg (Nat.pos_iff_ne_zero.mp h), List.sum_append,
      List.sum_replicate, smul_eq_mul, List.sum_cons, List.sum_nil, Nat.add_zero]
    rw [Nat.mul_comm]
    exact Nat.div_add_mod n b

/-- C1: for every `n ≥ 0` and `b > 0`, `amortize n b` succeeds with a list of
positive integers each at most `b`, summing exactly to `n`, consisting of
`n / b` chunks equal to `b` followed by one chunk `n % b` exactly when
`n % b ≠ 0`; `amortize 0 b` is empty, and `amortize` fails when `b = 0`
(the only natural number with `b ≤ 0`). -/
theorem amortize_correct (n b : ℕ) (hb : 0 < b) :
    (∃ l, amortize n b = some l ∧
      l.sum = n ∧
      (∀ x ∈ l, 0 < x ∧ x ≤ b) ∧
      l = List.replicate (n / b) b ++ (if n % b = 0 then [] else [n % b]) ∧
      (l.count b ≥ n / b) ∧
      (n = 0 → l = [])) ∧
    amortize n 0 = none := by
  constructor
  · refine ⟨List.replicate (n / b) b ++ (if n % b = 0 then [] else [n % b]),
      ?_, amortize_sum n b, ?_, rfl, ?_, ?_⟩
    · simp [amortize, Nat.pos_iff_ne_zero.mp hb]
    · intro x hx
      rcases List.mem_append.mp hx with h | h
      · rcases List.eq_of_mem_replicate h with rfl
        exact ⟨hb, le_refl _⟩
      · rcases Nat.eq_zero_or_pos (n % b) with h0 | h0
        · simp [h0] at h
        · simp only [if_neg (Nat.pos_iff_ne_zero.mp h0), List.mem_singleton] at h
          subst h
          exact ⟨h0, (Nat.mod_lt n hb).le⟩
    · calc n / b = (List.replicate (n / b) b).count b := by
              simp [List.count_replicate]
        _ ≤ _ := by
              rw [List.count_append]
              exact Nat.le_add_right _ _
    · rintro rfl
      simp
  · simp [amortize]

/-- Closed-form instances of C1 discharging its hypothesis at `n = 7`,
`b = 3` (the spec example `amortize(7,3) = [3,3,1]`). -/
theorem amortize_correct_witness :
    (0 : ℕ) < 3 ∧
    ((∃ l, amortize 7 3 = some l ∧
      l.sum = 7 ∧
      (∀ x ∈ l, 0 < x ∧ x ≤ 3) ∧
      l = List.replicate (7 / 3) 3 ++ (if 7 % 3 = 0 then [] else [7 % 3]) ∧
      (l.count 3 ≥ 7 / 3) ∧
      (7 = 0 → l = [])) ∧
    amortize 7 0 = none) :=
  ⟨by decide, amortize_correct 7 3 (by decide)⟩

/-! ## Plain-sample driver: file indices

In `sample.py`, `sample()` keeps a global index `idx` starting at 0,
iterates over the batch sizes from `amortize(n_samples, batch_size)`,
and for each decoded image saves `{idx}.png`, incrementing `idx`. -/

/-- Indices of the files written by one batch of size `bs` starting at
global index `idx` (the inner `for x in samples` loop of `sample()`). -/
def batchIndices (idx bs : ℕ) : List ℕ :=
  (List.range bs).map (fun j => idx + j)

/-- Indices of all files written by the `for bs in folds` loop of
`sample()` starting from global index `idx`. -/
def sampleIndices : ℕ → List ℕ → List ℕ
  | _, [] => []
  | idx, bs :: rest => batchIndices idx bs ++ sampleIndices (idx + bs) rest

/-- File name used by `sample()` for global index `idx`. -/
def sampleFileName (idx : ℕ) : String :=
  toString idx ++ ".png"

theorem sampleIndices_eq (l : List ℕ) :
    ∀ idx, sampleIndices idx l = (List.range l.sum).map (fun j => idx + j) := by
  induction l with
  | nil => intro idx; rfl
  | cons bs rest ih =>
      intro idx
      simp only [sampleIndices, List.sum_cons, batchIndices, List.range_add,
        List.map_append, List.map_map, ih]
      congr 1
      ext j
      simp [Function.comp, Nat.add_assoc]

/-- C2: in plain-sample mode with `batch_size > 0`, iterating over the
batch sizes produced by the batching helper writes exactly `n_samples`
files, with sequential global indices `0, 1, …, n_samples - 1`
(file names `0.png` through `(n_samples-1).png`); in particular
`n_samples = 5`, `batch_size = 2` uses batches `[2, 2, 1]` and writes
files `0.png` … `4.png`. -/
theorem sample_mode_file_indices (n B : ℕ) (hB : 0 < B) :
    (∃ folds, amortize n B = some folds ∧
      sampleIndices 0 folds = List.range n ∧
      (sampleIndices 0 folds).length = n ∧
      (sampleIndices 0 folds).map sampleFileName
        = (List.range n).map sampleFileName) ∧
    amortize 5 2 = some [2, 2, 1] ∧
    sampleIndices 0 [2, 2, 1] = [0, 1, 2, 3, 4] := by
  refine ⟨⟨List.replicate (n / B) B ++ (if n % B = 0 then [] else [n % B]),
    ?_, ?_, ?_, ?_⟩, by decide, by decide⟩
  · simp [amortize, Nat.pos_iff_ne_zero.mp hB]
  · rw [sampleIndices_eq, amortize_sum n B]
    simp
  · rw [sampleIndices_eq, amortize_sum n B]
    simp
  · rw [sampleIndices_eq, amortize_sum n B]
    simp

/-- Closed-form instance of C2 at `n_samples = 5`, `batch_size = 2`. -/
theorem sample_mode_file_indices_witness :
    (0 : ℕ) < 2 ∧
    ((∃ folds, amortize 5 2 = some folds ∧
      sampleIndices 0 folds = List.range 5 ∧
      (sampleIndices 0 folds).length = 5 ∧
      (sampleIndices 0 folds).map sampleFileName
        = (List.range 5).map sampleFileName) ∧
    amortize 5 2 = some [2, 2, 1] ∧
    sampleIndices 0 [2, 2, 1] = [0, 1, 2, 3, 4]) :=
  ⟨by decide, sample_mode_file_indices 5 2 (by decide)⟩

/-! ## Block descriptors for Encoder / Decoder construction

`models/simple_cnn.py` builds each intermediate block as
`nn.Sequential(norm-or-identity, nn.LeakyReLU(0.2), conv)` where the
norm stage is `nn.BatchNorm2d(...)` under a condition and `nn.Identity()`
otherwise. -/

/-- Normalization stage of a block: either `nn.BatchNorm2d(numFeatures)`
or `nn.Identity()`. -/
inductive NormStage
  | batchNorm2d (numFeatures : ℕ)
  | identity
deriving DecidableEq

/-- Whether a normalization stage is a batch-norm layer. -/
def NormStage.isBatchNorm : NormStage → Bool
  | .batchNorm2d _ => true
  | .identity => false

/-- Static description of a 2-D (transposed) convolution layer. -/
structure ConvSpec where
  inCh : ℕ
  outCh : ℕ
  kernel : ℕ
  stride : ℕ
  padding : ℕ
deriving DecidableEq

/-- Static description of one `nn.Sequential` block:
optional batch-norm, leaky-ReLU slope, convolution. -/
structure BlockDesc where
  norm : NormStage
  leakySlope : ℚ
  conv : ConvSpec
deriving DecidableEq

/-- Intermediate blocks of `Encoder.__init__` (`self.layers`): for
`i in range(len(dim_mults) - 1)`, batch-norm present iff
`i > 0 and with_bn`, then LeakyReLU(0.2), then
`Conv2d(dim*dim_mults[i], dim*dim_mults[i+1], (4,4), stride=2, padding=1)`. -/
def encoderInterBlocks (dim : ℕ) (dimMults : List ℕ) (withBN : Bool) :
    List BlockDesc :=
  (List.range (dimMults.length - 1)).map fun i =>
    { norm := if 0 < i ∧ withBN = true
        then .batchNorm2d (dim * dimMults.getD i 0) else .identity,
      leakySlope := 1/5,
      conv := { inCh := dim * dimMults.getD i 0,
                outCh := dim * dimMults.getD (i+1) 0,
                kernel := 4, stride := 2, padding := 1 } }

/-- Final block of `Encoder.__init__` (`self.last_conv`): batch-norm present
iff `with_bn`, then LeakyReLU(0.2), then
`Conv2d(dim*dim_mults[-1], dim*dim_mults[-1], (4,4), stride=1, padding=0)`. -/
def encoderLastBlock (dim : ℕ) (dimMults : List ℕ) (withBN : Bool) :
    BlockDesc :=
  { norm := if withBN = true
      then .batchNorm2d (dim * dimMults.getLastD 0) else .identity,
    leakySlope := 1/5,
    conv := { inCh := dim * dimMults.getLastD 0,
              outCh := dim * dimMults.getLastD 0,
              kernel := 4, stride := 1, padding := 0 } }

/-- Intermediate blocks of `Decoder.__init__` (`self.layers`): for
`i in range(len(dim_mults) - 1)`, batch-norm present iff `with_bn`
(no first-block exception), then LeakyReLU(0.2), then
`ConvTranspose2d(dim*dim_mults[i], dim*dim_mults[i+1], (4,4), stride=2, padding=1)`. -/
def decoderInterBlocks (dim : ℕ) (dimMults : List ℕ) (withBN : Bool) :
    List BlockDesc :=
  (List.range (dimMults.length - 1)).map fun i =>
    { norm := if withBN = true
        then .batchNorm2d (dim * dimMults.getD i 0) else .identity,
      leakySlope := 1/5,
      conv := { inCh := dim * dimMults.getD i 0,
                outCh := dim * dimMults.getD (i+1) 0,
                kernel := 4, stride := 2, padding := 1 } }

/-- Final block of `Decoder.__init__` (`self.last_conv`): batch-norm present
iff `with_bn`, then LeakyReLU(0.2), then
`ConvTranspose2d(dim*dim_mults[-1], out_dim, (4,4), stride=2, padding=1)`. -/
def decoderLastBlock (dim : ℕ) (dimMults : List ℕ) (withBN : Bool)
    (outDim : ℕ) : BlockDesc :=
  { norm := if withBN = true
      then .batchNorm2d (dim * dimMults.getLastD 0) else .identity,
    leakySlope := 1/5,
    conv := { inCh := dim * dimMults.getLastD 0,
              outCh := outDim,
              kernel := 4, stride := 2, padding := 1 } }

/-- Whether the block at position `i` of a block list carries a batch-norm
stage (`false` when `i` is out of range). -/
def normAt (l : List BlockDesc) (i : ℕ) : Bool :=
  (l[i]?.map (fun blk => blk.norm.isBatchNorm)).getD false

/-- C5: in the Encoder, intermediate block `i` (for `i < len(dim_mults)-1`)
contains a batch-norm stage iff `with_bn` is set and `i > 0`; the first
intermediate block never contains batch-norm even when `with_bn` is true,
and the final block contains it exactly when `with_bn` is true. -/
theorem encoder_batchnorm_placement (dim : ℕ) (dimMults : List ℕ)
    (withBN : Bool) (i : ℕ) (hi : i < dimMults.length - 1) :
    normAt (encoderInterBlocks dim dimMults withBN) i
      = (withBN && decide (0 < i)) ∧
    normAt (encoderInterBlocks dim dimMults withBN) 0 = false ∧
    (encoderLastBlock dim dimMults withBN).norm.isBatchNorm = withBN := by
  have h0 : 0 < dimMults.length - 1 := Nat.pos_of_ne_zero (by omega)
  refine ⟨?_, ?_, ?_⟩
  · simp only [normAt, encoderInterBlocks, List.getElem?_map,
      List.getElem?_range hi, Option.map_some', Option.getD_some]
    rcases Nat.eq_zero_or_pos i with hz | hp
    · subst hz
      simp [NormStage.isBatchNorm]
    · cases withBN
      · simp [NormStage.isBatchNorm]
      · simp [hp, NormStage.isBatchNorm]
  · simp [normAt, encoderInterBlocks, List.getElem?_map,
      List.getElem?_range h0, NormStage.isBatchNorm]
  · cases withBN <;> simp [encoderLastBlock, NormStage.isBatchNorm]

/-- Closed-form instance of C5 at `dim = 64`, `dim_mults = [1,2,4,8]`,
`with_bn = true`, `i = 1`. -/
theorem encoder_batchnorm_placement_witness :
    (1 < [1, 2, 4, 8].length - 1) ∧
    (normAt (encoderInterBlocks 64 [1, 2, 4, 8] true) 1
      = (true && decide (0 < 1)) ∧
    normAt (encoderInterBlocks 64 [1, 2, 4, 8] true) 0 = false ∧
    (encoderLastBlock 64 [1, 2, 4, 8] true).norm.isBatchNorm = true) :=
  ⟨by decide, encoder_batchnorm_placement 64 [1, 2, 4, 8] true 1 (by decide)⟩

/-- C10: in the Decoder, batch-normalization is applied uniformly: when
`with_bn` is set every intermediate block, including the very first one
(`i = 0`), and the final block contain a batch-norm stage — in contrast
with the Encoder, whose first intermediate block never does. -/
theorem decoder_batchnorm_uniform (dim : ℕ) (dimMults : List ℕ)
    (withBN : Bool) (outDim : ℕ) (i : ℕ) (hi : i < dimMults.length - 1) :
    normAt (decoderInterBlocks dim dimMults withBN) i = withBN ∧
    normAt (decoderInterBlocks dim dimMults withBN) 0 = withBN ∧
    (decoderLastBlock dim dimMults withBN outDim).norm.isBatchNorm = withBN ∧
    normAt (encoderInterBlocks dim dimMults withBN) 0 = false := by
  have h0 : 0 < dimMults.length - 1 := Nat.pos_of_ne_zero (by omega)
  refine ⟨?_, ?_, ?_, ?_⟩
  · simp only [normAt, decoderInterBlocks, List.getElem?_map,
      List.getElem?_range hi, Option.map_some', Option.getD_some]
    cases withBN <;> simp [NormStage.isBatchNorm]
  · simp only [normAt, decoderInterBlocks, List.getElem?_map,
      List.getElem?_range h0, Option.map_some', Option.getD_some]
    cases withBN <;> simp [NormStage.isBatchNorm]
  · cases withBN <;> simp [decoderLastBlock, NormStage.isBatchNorm]
  · simp [normAt, encoderInterBlocks, List.getElem?_map,
      List.getElem?_range h0, NormStage.isBatchNorm]

/-- Closed-form instance of C10 at `dim = 64`, `dim_mults = [8,4,2,1]`,
`with_bn = true`, `out_dim = 3`, `i = 0`. -/
theorem decoder_batchnorm_uniform_witness :
    (0 < [8, 4, 2, 1].length - 1) ∧
    (normAt (decoderInterBlocks 64 [8, 4, 2, 1] true) 0 = true ∧
    normAt (decoderInterBlocks 64 [8, 4, 2, 1] true) 0 = true ∧
    (decoderLastBlock 64 [8, 4, 2, 1] true 3).norm.isBatchNorm = true ∧
    normAt (encoderInterBlocks 64 [8, 4, 2, 1] true) 0 = false) :=
  ⟨by decide, decoder_batchnorm_uniform 64 [8, 4, 2, 1] true 3 0 (by decide)⟩

/-! ## Mode dispatch -/

/-- Action taken by `main()` for a given `--mode` string: one of the
three generation procedures or a fatal `ValueError`. -/
inductive ModeAction
  | runSample
  | runInterpolate
  | runTraverse
  | fatal (msg : String)
deriving DecidableEq

/-- Dispatch at the bottom of `main()`:
`if mode == 'sample' ... elif 'interpolate' ... elif 'traverse' ...
else raise ValueError(f'Unknown sample mode: \x7bmode\x7d')`. -/
def dispatchMode (mode : String) : ModeAction :=
  if mode = "sample" then .runSample
  else if mode = "interpolate" then .runInterpolate
  else if mode = "traverse" then .runTraverse
  else .fatal ("Unknown sample mode: " ++ mode)

/-- C8: `dispatchMode` runs each generation procedure exactly for its own
mode string (mutually exclusive dispatch), and for any other string it
fails fatally with an error message that names the invalid mode value;
no generation procedure runs in that case. -/
theorem dispatch_mode_correct (mode : String) :
    (dispatchMode mode = .runSample ↔ mode = "sample") ∧
    (dispatchMode mode = .runInterpolate ↔ mode = "interpolate") ∧
    (dispatchMode mode = .runTraverse ↔ mode = "traverse") ∧
    (¬(mode = "sample" ∨ mode = "interpolate" ∨ mode = "traverse") ↔
      dispatchMode mode = .fatal ("Unknown sample mode: " ++ mode)) := by
  by_cases h1 : mode = "sample"
  · subst h1; refine ⟨by simp [dispatchMode], ?_, ?_, ?_⟩ <;>
      simp [dispatchMode]
  · by_cases h2 : mode = "interpolate"
    · subst h2; refine ⟨?_, by simp [dispatchMode], ?_, ?_⟩ <;>
        simp [dispatchMode]
    · by_cases h3 : mode = "traverse"
      · subst h3; refine ⟨?_, ?_, by simp [dispatchMode], ?_⟩ <;>
          simp [dispatchMode]
      · refine ⟨?_, ?_, ?_, ?_⟩ <;>
          simp [dispatchMode, h1, h2, h3]

/-- Closed-form instance of C8 at the invalid mode string `"foo"`. -/
theorem dispatch_mode_correct_witness :
    (dispatchMode "foo" = .runSample ↔ "foo" = "sample") ∧
    (dispatchMode "foo" = .runInterpolate ↔ "foo" = "interpolate") ∧
    (dispatchMode "foo" = .runTraverse ↔ "foo" = "traverse") ∧
    (¬("foo" = "sample" ∨ "foo" = "interpolate" ∨ "foo" = "traverse") ↔
      dispatchMode "foo" = .fatal ("Unknown sample mode: " ++ "foo")) :=
  dispatch_mode_correct "foo"

/-! ## Shape semantics of `Decoder.forward`

Tensor shapes are lists `[batch, channels, height, width]`; a layer
application returns `none` exactly when PyTorch would raise a shape or
channel mismatch error. -/

/-- Configuration of `Decoder.__init__` (field names as in the source). -/
structure DecoderCfg where
  z_dim : ℕ
  dim : ℕ
  dim_mults : List ℕ
  out_dim : ℕ
  with_bn : Bool
  with_tanh : Bool
deriving DecidableEq

/-- Output spatial size of `nn.ConvTranspose2d` with square kernel `k`,
stride `s`, padding `p` on input size `h`: `(h-1)*s - 2*p + k`. -/
def convTOutSize (h k s p : ℕ) : ℕ :=
  (h - 1) * s + k - 2 * p

/-- Output spatial size of `nn.Conv2d` with square kernel `k`, stride `s`,
padding `p` on input size `h`: `(h + 2*p - k)/s + 1`. -/
def convOutSize (h k s p : ℕ) : ℕ :=
  (h + 2 * p - k) / s + 1

/-- Shape action of `nn.ConvTranspose2d(cin, cout, (k,k), stride=s,
padding=p)`: requires a rank-4 input whose channel count equals `cin`. -/
def convT2dShape (cin cout k s p : ℕ) : List ℕ → Option (List ℕ)
  | [b, c, h, w] =>
      if c = cin then some [b, cout, convTOutSize h k s p, convTOutSize w k s p]
      else none
  | _ => none

/-- Shape action of the `Decoder.forward` reshape
`X.view(-1, X.shape[1], 1, 1)`, applied only to rank-2 inputs. -/
def viewLatentShape (s : List ℕ) : List ℕ :=
  match s with
  | [b, c] => [b, c, 1, 1]
  | _ => s

/-- Shape action of the intermediate Decoder blocks (`self.layers`): one
`ConvTranspose2d(dim*m[i], dim*m[i+1], (4,4), stride=2, padding=1)` per
adjacent pair of `dim_mults` (batch-norm and leaky-ReLU preserve shape). -/
def decoderInterShape (dim : ℕ) : List ℕ → List ℕ → Option (List ℕ)
  | m1 :: m2 :: rest, s =>
      (convT2dShape (dim * m1) (dim * m2) 4 2 1 s).bind
        (decoderInterShape dim (m2 :: rest))
  | _, s => some s

/-- Shape action of the full `Decoder.forward`: reshape, initial
`ConvTranspose2d(z_dim, dim*dim_mults[0], (4,4), stride=1, padding=0)`,
intermediate blocks, final
`ConvTranspose2d(dim*dim_mults[-1], out_dim, (4,4), stride=2, padding=1)`
(the final activation preserves shape). -/
def decoderForwardShape (cfg : DecoderCfg) (s : List ℕ) : Option (List ℕ) :=
  (convT2dShape cfg.z_dim (cfg.dim * cfg.dim_mults.headD 0) 4 1 0
      (viewLatentShape s)).bind
    (fun s1 => (decoderInterShape cfg.dim cfg.dim_mults s1).bind
      (convT2dShape (cfg.dim * cfg.dim_mults.getLastD 0) cfg.out_dim 4 2 1))

/-- Spatial size after `n` stride-2 `Conv2d(·, ·, (4,4), stride=2,
padding=1)` applications (the Encoder downsampling chain). -/
def encoderDownsizes : ℕ → ℕ → ℕ
  | 0, h => h
  | n + 1, h => encoderDownsizes n (convOutSize h 4 2 1)

/-- Spatial size of the Encoder feature map entering the heads: the
initial conv plus `numMults - 1` blocks are `numMults` stride-2
convolutions, then `self.last_conv` applies a stride-1, padding-0,
4×4 convolution. -/
def encoderFeatureSize (numMults h : ℕ) : ℕ :=
  convOutSize (encoderDownsizes numMults h) 4 1 0

theorem convTOutSize_double (h : ℕ) (hh : 1 ≤ h) :
    convTOutSize h 4 2 1 = 2 * h := by
  unfold convTOutSize
  omega

theorem decoderInterShape_run (dim : ℕ) (rest : List ℕ) :
    ∀ m b h, 1 ≤ h →
      decoderInterShape dim (m :: rest) [b, dim * m, h, h]
        = some [b, dim * (m :: rest).getLastD 0,
            2 ^ rest.length * h, 2 ^ rest.length * h] := by
  induction rest with
  | nil =>
      intro m b h hh
      simp [decoderInterShape]
  | cons m2 rest2 ih =>
      intro m b h hh
      have hstep : convT2dShape (dim * m) (dim * m2) 4 2 1 [b, dim * m, h, h]
          = some [b, dim * m2, 2 * h, 2 * h] := by
        simp [convT2dShape, convTOutSize_double h hh]
      rw [decoderInterShape, hstep, Option.some_bind,
        ih m2 b (2 * h) (by omega)]
      have : 2 ^ rest2.length * (2 * h) = 2 ^ (m2 :: rest2).length * h := by
        simp [List.length_cons, pow_succ]
        ring
      simp [List.getLastD_cons, this]

/-- C6: for `k = len(dim_mults) ≥ 1` multipliers, `Decoder.forward` maps a
latent of shape `[batch, z_dim]` to an image of shape
`[batch, out_dim, S, S]` with `S = 4 * 2^k`; for the canonical four
multipliers this restores spatial size 64, inverting the Encoder chain,
which collapses a 64×64 input to a 1×1 feature map. -/
theorem decoder_forward_shape (cfg : DecoderCfg) (b : ℕ)
    (hne : cfg.dim_mults ≠ []) :
    decoderForwardShape cfg [b, cfg.z_dim]
      = some [b, cfg.out_dim,
          4 * 2 ^ cfg.dim_mults.length, 4 * 2 ^ cfg.dim_mults.length] ∧
    (cfg.dim_mults.length = 4 →
      decoderForwardShape cfg [b, cfg.z_dim]
        = some [b, cfg.out_dim, 64, 64]) ∧
    encoderFeatureSize 4 64 = 1 := by
  obtain ⟨m, rest, hm⟩ : ∃ m rest, cfg.dim_mults = m :: rest := by
    cases hcase : cfg.dim_mults with
    | nil => exact absurd hcase hne
    | cons m rest => exact ⟨m, rest, rfl⟩
  have hmain : decoderForwardShape cfg [b, cfg.z_dim]
      = some [b, cfg.out_dim,
          4 * 2 ^ cfg.dim_mults.length, 4 * 2 ^ cfg.dim_mults.length] := by
    have hfirst : convT2dShape cfg.z_dim (cfg.dim * cfg.dim_mults.headD 0)
        4 1 0 (viewLatentShape [b, cfg.z_dim])
        = some [b, cfg.dim * cfg.dim_mults.headD 0, 4, 4] := by
      simp [viewLatentShape, convT2dShape, convTOutSize]
    have hlast : convT2dShape (cfg.dim * cfg.dim_mults.getLastD 0) cfg.out_dim
        4 2 1 [b, cfg.dim * cfg.dim_mults.getLastD 0,
          2 ^ rest.length * 4, 2 ^ rest.length * 4]
        = some [b, cfg.out_dim,
            4 * 2 ^ cfg.dim_mults.length, 4 * 2 ^ cfg.dim_mults.length] := by
      have hpos : 1 ≤ 2 ^ rest.length * 4 :=
        Nat.one_le_iff_ne_zero.mpr (by positivity)
      have hsz : 2 * (2 ^ rest.length * 4) = 4 * 2 ^ cfg.dim_mults.length := by
        rw [hm]
        simp [List.length_cons, pow_succ]
        ring
      simp [convT2dShape, convTOutSize_double _ hpos, hsz]
    rw [decoderForwardShape, hfirst, Option.some_bind]
    rw [hm] at hlast ⊢
    simp only [List.headD_cons]
    rw [decoderInterShape_run cfg.dim rest m b 4 (by omega), Option.some_bind]
    exact hlast
  refine ⟨hmain, fun h4 => ?_, by decide⟩
  rw [hmain, h4]
  norm_num

/-- Closed-form instance of C6 at the canonical decoder configuration
`z_dim=128, dim=64, dim_mults=[8,4,2,1], out_dim=3`. -/
theorem decoder_forward_shape_witness :
    (DecoderCfg.mk 128 64 [8, 4, 2, 1] 3 true true).dim_mults ≠ [] ∧
    (decoderForwardShape (DecoderCfg.mk 128 64 [8, 4, 2, 1] 3 true true)
        [10, (DecoderCfg.mk 128 64 [8, 4, 2, 1] 3 true true).z_dim]
      = some [10, 3, 4 * 2 ^ ([8, 4, 2, 1] : List ℕ).length,
          4 * 2 ^ ([8, 4, 2, 1] : List ℕ).length] ∧
    (([8, 4, 2, 1] : List ℕ).length = 4 →
      decoderForwardShape (DecoderCfg.mk 128 64 [8, 4, 2, 1] 3 true true)
          [10, (DecoderCfg.mk 128 64 [8, 4, 2, 1] 3 true true).z_dim]
        = some [10, 3, 64, 64]) ∧
    encoderFeatureSize 4 64 = 1) :=
  ⟨by decide,
    decoder_forward_shape (DecoderCfg.mk 128 64 [8, 4, 2, 1] 3 true true)
      10 (by decide)⟩

/-! ## Latent shapes drawn by the three sampling procedures -/

/-- Configuration slice of the driver: the encoder's configured latent
dimension (`conf.encoder.params.z_dim`) and the decoder configuration
(`conf.decoder.params`). -/
structure DriverConf where
  encoder_z_dim : ℕ
  decoder : DecoderCfg

/-- Shape of the latent drawn in `sample()`:
`torch.randn((bs, conf.encoder.params.z_dim))`. -/
def sampleLatentShape (conf : DriverConf) (bs : ℕ) : List ℕ :=
  [bs, conf.encoder_z_dim]

/-- Shape of each of the two latents drawn in `interpolate()`:
`torch.randn((bs, conf.encoder.params.z_dim))`. -/
def interpolateLatentShape (conf : DriverConf) (bs : ℕ) : List ℕ :=
  [bs, conf.encoder_z_dim]

/-- Shape of the latent batch passed to the decoder in `traverse()` after
`z.reshape(-1, conf.encoder.params.z_dim)`:
`[bs * n_traverse, conf.encoder.params.z_dim]`. -/
def traverseLatentShape (conf : DriverConf) (bs nTraverse : ℕ) : List ℕ :=
  [bs * nTraverse, conf.encoder_z_dim]

/-- C9: all three sampling modes draw latents whose feature dimension is
the encoder's configured `z_dim`, not the decoder's; when the two
configurations disagree, the drawn latents still follow the encoder's
`z_dim` and the decoder then rejects them with a channel mismatch. -/
theorem sampling_uses_encoder_z_dim (conf : DriverConf) (bs nTraverse : ℕ)
    (hne : conf.encoder_z_dim ≠ conf.decoder.z_dim) :
    (sampleLatentShape conf bs).getLastD 0 = conf.encoder_z_dim ∧
    (interpolateLatentShape conf bs).getLastD 0 = conf.encoder_z_dim ∧
    (traverseLatentShape conf bs nTraverse).getLastD 0 = conf.encoder_z_dim ∧
    decoderForwardShape conf.decoder (sampleLatentShape conf bs) = none ∧
    decoderForwardShape conf.decoder
      (traverseLatentShape conf bs nTraverse) = none := by
  refine ⟨rfl, rfl, rfl, ?_, ?_⟩ <;>
    simp [decoderForwardShape, sampleLatentShape, traverseLatentShape,
      viewLatentShape, convT2dShape, hne]

/-- Closed-form instance of C9 with `encoder z_dim = 128`,
`decoder z_dim = 64`. -/
theorem sampling_uses_encoder_z_dim_witness :
    (DriverConf.mk 128 (DecoderCfg.mk 64 64 [8, 4, 2, 1] 3 true true)
        ).encoder_z_dim
      ≠ (DecoderCfg.mk 64 64 [8, 4, 2, 1] 3 true true).z_dim ∧
    ((sampleLatentShape
        (DriverConf.mk 128 (DecoderCfg.mk 64 64 [8, 4, 2, 1] 3 true true)) 5
        ).getLastD 0 = 128 ∧
    (interpolateLatentShape
        (DriverConf.mk 128 (DecoderCfg.mk 64 64 [8, 4, 2, 1] 3 true true)) 5
        ).getLastD 0 = 128 ∧
    (traverseLatentShape
        (DriverConf.mk 128 (DecoderCfg.mk 64 64 [8, 4, 2, 1] 3 true true)) 5 15
        ).getLastD 0 = 128 ∧
    decoderForwardShape (DecoderCfg.mk 64 64 [8, 4, 2, 1] 3 true true)
      (sampleLatentShape
        (DriverConf.mk 128 (DecoderCfg.mk 64 64 [8, 4, 2, 1] 3 true true)) 5)
      = none ∧
    decoderForwardShape (DecoderCfg.mk 64 64 [8, 4, 2, 1] 3 true true)
      (traverseLatentShape
        (DriverConf.mk 128 (DecoderCfg.mk 64 64 [8, 4, 2, 1] 3 true true)) 5 15)
      = none) :=
  ⟨by decide,
    sampling_uses_encoder_z_dim
      (DriverConf.mk 128 (DecoderCfg.mk 64 64 [8, 4, 2, 1] 3 true true))
      5 15 (by decide)⟩

/-! ## Value semantics of `Decoder.forward`

Floating-point tensor values are idealized as real numbers; a tensor is a
total function on indices `[batch, channel, row, col]`, with indices
outside the shape under consideration irrelevant. -/

noncomputable section

/-- Rank-4 real tensor. -/
def Tensor4 : Type :=
  ℕ → ℕ → ℕ → ℕ → ℝ

/-- Parameters of a `ConvTranspose2d` layer:
`weight[cin][cout][ki][kj]` and `bias[cout]`. -/
structure ConvTParams where
  weight : ℕ → ℕ → ℕ → ℕ → ℝ
  bias : ℕ → ℝ

/-- Eval-mode parameters of a `BatchNorm2d` layer (per channel). -/
structure BNParams where
  gamma : ℕ → ℝ
  beta : ℕ → ℝ
  running_mean : ℕ → ℝ
  running_var : ℕ → ℝ

/-- Default `BatchNorm2d` epsilon (`1e-5`). -/
def bnEps : ℝ :=
  1e-5

/-- `nn.ConvTranspose2d` on a square input of `cin` channels and spatial
size `hin`, kernel `k`, stride `s`, padding `p`: output position `(i, j)`
collects every input position `(ii, jj)` and kernel offset `(ki, kj)` with
`ii*s + ki = i + p` and `jj*s + kj = j + p`. -/
def convT2d (cin hin k s p : ℕ) (P : ConvTParams) (X : Tensor4) : Tensor4 :=
  fun b co i j =>
    P.bias co +
      ∑ ci ∈ Finset.range cin, ∑ ii ∈ Finset.range hin,
        ∑ jj ∈ Finset.range hin,
          ∑ ki ∈ Finset.range k, ∑ kj ∈ Finset.range k,
            if ii * s + ki = i + p ∧ jj * s + kj = j + p
            then X b ci ii jj * P.weight ci co ki kj else 0

/-- Eval-mode `nn.BatchNorm2d` using running statistics. -/
def batchNorm2d (P : BNParams) (X : Tensor4) : Tensor4 :=
  fun b c i j =>
    P.gamma c * ((X b c i j - P.running_mean c)
        / Real.sqrt (P.running_var c + bnEps))
      + P.beta c

/-- `nn.LeakyReLU` with the given negative slope. -/
def leakyReLU (slope x : ℝ) : ℝ :=
  if x < 0 then slope * x else x

/-- Apply a scalar function elementwise to a tensor. -/
def tmap (f : ℝ → ℝ) (X : Tensor4) : Tensor4 :=
  fun b c i j => f (X b c i j)

/-- Weights of a constructed Decoder: initial transposed convolution,
per-block batch-norm and transposed-convolution parameters, final block. -/
structure DecoderWeights where
  first_conv : ConvTParams
  block_bn : ℕ → BNParams
  block_conv : ℕ → ConvTParams
  last_bn : BNParams
  last_conv : ConvTParams

/-- Reshape of a flat latent `[batch, z_dim]` to `[batch, z_dim, 1, 1]`
(`X.view(-1, X.shape[1], 1, 1)` in `Decoder.forward`). -/
def viewLatent (Z : ℕ → ℕ → ℝ) : Tensor4 :=
  fun b c i j => if i = 0 ∧ j = 0 then Z b c else 0

/-- One intermediate Decoder block
`nn.Sequential(BatchNorm2d-or-Identity, LeakyReLU(0.2), ConvTranspose2d)`;
block `i` consumes `dim * dim_mults[i]` channels at spatial size `4*2^i`. -/
def decoderBlockApply (cfg : DecoderCfg) (W : DecoderWeights) (i : ℕ)
    (X : Tensor4) : Tensor4 :=
  convT2d (cfg.dim * cfg.dim_mults.getD i 0) (4 * 2 ^ i) 4 2 1
    (W.block_conv i)
    (tmap (leakyReLU 0.2)
      (if cfg.with_bn then batchNorm2d (W.block_bn i) X else X))

/-- Blocks `0 … count-1` of `self.layers` applied in order. -/
def decoderBlocksApply (cfg : DecoderCfg) (W : DecoderWeights) :
    ℕ → Tensor4 → Tensor4
  | 0, X => X
  | n + 1, X => decoderBlockApply cfg W n (decoderBlocksApply cfg W n X)

/-- `Decoder.forward` up to but excluding the final activation: reshape,
`self.first_conv`, `self.layers`, `self.last_conv`. -/
def decoderPreAct (cfg : DecoderCfg) (W : DecoderWeights)
    (Z : ℕ → ℕ → ℝ) : Tensor4 :=
  convT2d (cfg.dim * cfg.dim_mults.getLastD 0)
    (4 * 2 ^ (cfg.dim_mults.length - 1)) 4 2 1 W.last_conv
    (tmap (leakyReLU 0.2)
      ((fun x1 => if cfg.with_bn then batchNorm2d W.last_bn x1 else x1)
        (decoderBlocksApply cfg W (cfg.dim_mults.length - 1)
          (convT2d cfg.z_dim 1 4 1 0 W.first_conv (viewLatent Z)))))

/-- Full `Decoder.forward` on a flat latent: `decoderPreAct` then
`self.act` (`nn.Tanh()` iff `with_tanh`, else `nn.Identity()`). -/
def decoderForward (cfg : DecoderCfg) (W : DecoderWeights)
    (Z : ℕ → ℕ → ℝ) : Tensor4 :=
  tmap (fun x => if cfg.with_tanh then Real.tanh x else x)
    (decoderPreAct cfg W Z)

theorem tanh_abs_le_one (x : ℝ) : |Real.tanh x| ≤ 1 := by
  have hc : 0 < Real.cosh x := Real.cosh_pos x
  have h1 : Real.sinh x < Real.cosh x := Real.sinh_lt_cosh x
  have h2 : -Real.cosh x < Real.sinh x := by
    have h3 : Real.sinh (-x) < Real.cosh (-x) := Real.sinh_lt_cosh (-x)
    rw [Real.sinh_neg, Real.cosh_neg] at h3
    linarith
  rw [Real.tanh_eq_sinh_div_cosh, abs_div, abs_of_pos hc, div_le_one hc,
    abs_le]
  exact ⟨by linarith, h1.le⟩

/-- C7: when `with_tanh` is enabled every component of the tensor returned
by `Decoder.forward` lies in `[-1, 1]`, for arbitrary weights and input
latents; when `with_tanh` is disabled the final activation is the
identity. -/
theorem decoder_output_bounded (cfg : DecoderCfg) (W : DecoderWeights)
    (Z : ℕ → ℕ → ℝ) (b c i j : ℕ) :
    (cfg.with_tanh = true →
      -1 ≤ decoderForward cfg W Z b c i j ∧
        decoderForward cfg W Z b c i j ≤ 1) ∧
    (cfg.with_tanh = false →
      decoderForward cfg W Z b c i j = decoderPreAct cfg W Z b c i j) := by
  constructor
  · intro h
    have hb := abs_le.mp (tanh_abs_le_one (decoderPreAct cfg W Z b c i j))
    unfold decoderForward tmap
    rw [h]
    simpa using hb
  · intro h
    unfold decoderForward tmap
    rw [h]
    simp

/-- Zero-initialized decoder weights, used to instantiate theorems at a
concrete input. -/
def zeroWeights : DecoderWeights :=
  ⟨⟨fun _ _ _ _ => 0, fun _ => 0⟩,
    fun _ => ⟨fun _ => 1, fun _ => 0, fun _ => 0, fun _ => 1⟩,
    fun _ => ⟨fun _ _ _ _ => 0, fun _ => 0⟩,
    ⟨fun _ => 1, fun _ => 0, fun _ => 0, fun _ => 1⟩,
    ⟨fun _ _ _ _ => 0, fun _ => 0⟩⟩

/-- Closed-form instance of C7 at a concrete configuration with
`with_tanh = true` and zero weights. -/
theorem decoder_output_bounded_witness :
    -1 ≤ decoderForward (DecoderCfg.mk 2 1 [1] 1 false true) zeroWeights
          (fun _ _ => 0) 0 0 0 0 ∧
      decoderForward (DecoderCfg.mk 2 1 [1] 1 false true) zeroWeights
          (fun _ _ => 0) 0 0 0 0 ≤ 1 :=
  (decoder_output_bounded (DecoderCfg.mk 2 1 [1] 1 false true) zeroWeights
    (fun _ _ => 0) 0 0 0 0).1 rfl

/-! ## Interpolation and traversal -/

/-- Values of `torch.linspace(a, b, steps)`: `steps` evenly spaced points
from `a` to `b` inclusive; a single step yields `[a]` (in Lean the
division by `steps - 1 = 0` is zero, matching that convention). -/
def linspace (a b : ℝ) (steps : ℕ) : List ℝ :=
  (List.range steps).map
    (fun jj : ℕ => a + (b - a) * (jj : ℝ) / ((steps - 1 : ℕ) : ℝ))

/-- One interpolated latent `z1 * t + z2 * (1 - t)`
(line 135 of `sample.py`). -/
def interpLatent (z1 z2 : ℕ → ℕ → ℝ) (t : ℝ) : ℕ → ℕ → ℝ :=
  fun b i => z1 b i * t + z2 b i * (1 - t)

/-- Decoded frames produced per batch in interpolate mode: decode
`z1 * t + z2 * (1-t)` for each `t` in `torch.linspace(0, 1, n_interpolate)`. -/
def interpolateFrames (cfg : DecoderCfg) (W : DecoderWeights)
    (z1 z2 : ℕ → ℕ → ℝ) (nInterpolate : ℕ) : List Tensor4 :=
  (linspace 0 1 nInterpolate).map
    (fun t => decoderForward cfg W (interpLatent z1 z2 t))

theorem interpLatent_zero (z1 z2 : ℕ → ℕ → ℝ) :
    interpLatent z1 z2 0 = z2 := by
  funext b i
  simp [interpLatent]

theorem interpLatent_one (z1 z2 : ℕ → ℕ → ℝ) :
    interpLatent z1 z2 1 = z1 := by
  funext b i
  simp [interpLatent]

theorem linspace_first (a b : ℝ) (steps : ℕ) (h : 0 < steps) :
    (linspace a b steps)[0]? = some a := by
  rw [linspace, List.getElem?_map, List.getElem?_range h, Option.map_some']
  norm_num

theorem linspace_last (a b : ℝ) (steps : ℕ) (h : 2 ≤ steps) :
    (linspace a b steps)[steps - 1]? = some b := by
  have hlt : steps - 1 < steps := by omega
  have hne : ((steps - 1 : ℕ) : ℝ) ≠ 0 := by
    have : (1 : ℝ) ≤ ((steps - 1 : ℕ) : ℝ) := by
      exact_mod_cast Nat.one_le_iff_ne_zero.mpr (by omega)
    linarith
  rw [linspace, List.getElem?_map, List.getElem?_range hlt, Option.map_some']
  congr 1
  rw [mul_div_assoc, div_self hne, mul_one]
  ring

/-- C3: in interpolate mode the frame at `t = 0` equals
`Decoder.forward(z2)` and the frame at `t = 1` (the last of
`n_interpolate ≥ 2` evenly spaced, inclusive-endpoint values) equals
`Decoder.forward(z1)`, for any weights and latents. -/
theorem interpolate_endpoints_exact (cfg : DecoderCfg) (W : DecoderWeights)
    (z1 z2 : ℕ → ℕ → ℝ) (n : ℕ) (hn : 2 ≤ n) :
    (interpolateFrames cfg W z1 z2 n)[0]?
      = some (decoderForward cfg W z2) ∧
    (interpolateFrames cfg W z1 z2 n)[n - 1]?
      = some (decoderForward cfg W z1) ∧
    (linspace 0 1 n)[0]? = some 0 ∧
    (linspace 0 1 n)[n - 1]? = some 1 := by
  have h0 : (linspace 0 1 n)[0]? = some 0 :=
    linspace_first 0 1 n (by omega)
  have h1 : (linspace 0 1 n)[n - 1]? = some 1 :=
    linspace_last 0 1 n hn
  refine ⟨?_, ?_, h0, h1⟩
  · rw [interpolateFrames, List.getElem?_map, h0, Option.map_some',
      interpLatent_zero]
  · rw [interpolateFrames, List.getElem?_map, h1, Option.map_some',
      interpLatent_one]

/-- Closed-form instance of C3 at `n_interpolate = 2` with zero weights
and zero latents. -/
theorem interpolate_endpoints_exact_witness :
    2 ≤ 2 ∧
    ((interpolateFrames (DecoderCfg.mk 2 1 [1] 1 false true) zeroWeights
        (fun _ _ => 0) (fun _ _ => 0) 2)[0]?
      = some (decoderForward (DecoderCfg.mk 2 1 [1] 1 false true)
          zeroWeights (fun _ _ => 0)) ∧
    (interpolateFrames (DecoderCfg.mk 2 1 [1] 1 false true) zeroWeights
        (fun _ _ => 0) (fun _ _ => 0) 2)[2 - 1]?
      = some (decoderForward (DecoderCfg.mk 2 1 [1] 1 false true)
          zeroWeights (fun _ _ => 0)) ∧
    (linspace 0 1 2)[0]? = some 0 ∧
    (linspace 0 1 2)[2 - 1]? = some 1) :=
  ⟨by omega,
    interpolate_endpoints_exact (DecoderCfg.mk 2 1 [1] 1 false true)
      zeroWeights (fun _ _ => 0) (fun _ _ => 0) 2 (by omega)⟩

/-- Latent used in traverse mode at one traversal step: the base latent
with coordinate `traverse_dim` overwritten by the step value
(`z[:, :, traverse_dim] = linspace(...)` in `traverse()`). -/
def traverseLatent (z : ℕ → ℕ → ℝ) (traverseDim : ℕ) (v : ℝ) :
    ℕ → ℕ → ℝ :=
  fun b i => if i = traverseDim then v else z b i

/-- Decoded frames per sample in traverse mode: decode the base latent
with coordinate `traverse_dim` replaced by each value of
`torch.linspace(-traverse_range, traverse_range, n_traverse)`. -/
def traverseFrames (cfg : DecoderCfg) (W : DecoderWeights)
    (z : ℕ → ℕ → ℝ) (traverseDim : ℕ) (traverseRange : ℝ)
    (nTraverse : ℕ) : List Tensor4 :=
  (linspace (-traverseRange) traverseRange nTraverse).map
    (fun v => decoderForward cfg W (traverseLatent z traverseDim v))

theorem linspace_single (a b : ℝ) : linspace a b 1 = [a] := by
  simp [linspace, List.range_succ]

/-- C4: with `n_traverse = 1` the traversal of a sample produces exactly
one frame, the standard decoding of the base latent with coordinate
`traverse_dim` overwritten by `-traverse_range` (single-point linspace
convention); all other coordinates are unchanged. -/
theorem traverse_single_point (cfg : DecoderCfg) (W : DecoderWeights)
    (z : ℕ → ℕ → ℝ) (d : ℕ) (r : ℝ) :
    traverseFrames cfg W z d r 1
      = [decoderForward cfg W (traverseLatent z d (-r))] ∧
    linspace (-r) r 1 = [-r] ∧
    (∀ b i, i ≠ d → traverseLatent z d (-r) b i = z b i) ∧
    (∀ b, traverseLatent z d (-r) b d = -r) := by
  refine ⟨?_, linspace_single (-r) r, ?_, ?_⟩
  · rw [traverseFrames, linspace_single]
    rfl
  · intro b i hi
    simp [traverseLatent, hi]
  · intro b
    simp [traverseLatent]

/-- Closed-form instance of C4 at a concrete configuration,
`traverse_dim = 0`, `traverse_range = 3`. -/
theorem traverse_single_point_witness :
    traverseFrames (DecoderCfg.mk 2 1 [1] 1 false true) zeroWeights
        (fun _ _ => 0) 0 3 1
      = [decoderForward (DecoderCfg.mk 2 1 [1] 1 false true) zeroWeights
          (traverseLatent (fun _ _ => 0) 0 (-3))] ∧
    linspace (-3) 3 1 = [-3] :=
  ⟨(traverse_single_point (DecoderCfg.mk 2 1 [1] 1 false true) zeroWeights
      (fun _ _ => 0) 0 3).1,
    (traverse_single_point (DecoderCfg.mk 2 1 [1] 1 false true) zeroWeights
      (fun _ _ => 0) 0 3).2.1⟩

end

end VAESpec
